import Mathlib

/-!
Verification of the storage-abstraction layer of the rn-template repository.

The repository code under `src/utils` consists of a typed storage facade
(`localStorage`, `jsonStorage`, `numberStorage`, `booleanStorage`) over one
shared MMKV key-value engine instance, and a jotai persisted-atom bridge
(`atomWithMMKV`, `createDebouncedAtom`, ...).  This file shallowly embeds
that layer and proves the testable properties stated in the specification.

Modelling conventions:
- The MMKV engine (external dependency `react-native-mmkv`) is modelled as
  an association list from string keys to typed values, with an explicit
  fault oracle so that the try/catch fault policy of the facade is visible.
- JavaScript `JSON.stringify` / `JSON.parse` (language built-ins) are
  modelled over an inductive `Json` type.  JSON numbers are modelled as
  integers: IEEE-754 doubles are outside the scope of a shallow embedding,
  and every claim only exercises integer numbers.  Non-integer numeric
  literals are still accepted by the parser (so that parser failure
  faithfully matches JSON grammar failure) but their value is approximated.
- JavaScript falsiness of a string (used by `jsonStorage.getItem`) is the
  empty-string test; JS `null`/`undefined` results of the JSON facade are
  represented by `Json.null`.
-/

/-! ## Character helpers for the JSON grammar -/

/-- Decidable digit test on the decimal digit code points 48..57,
mirroring the JSON grammar DIGIT class. -/
def jsDigit (c : Char) : Bool :=
  Nat.ble 48 c.toNat && Nat.ble c.toNat 57

/-- Whitespace characters of the JSON grammar: space, tab, line feed,
carriage return. -/
def jsWs (c : Char) : Bool :=
  (c.toNat == 32) || (c.toNat == 9) || (c.toNat == 10) || (c.toNat == 13)

/-- Left curly brace character. -/
def lbrace : Char := Char.ofNat 123

/-- Right curly brace character. -/
def rbrace : Char := Char.ofNat 125

/-- Decimal digit character for a digit value below ten. -/
def digitChar : Nat → Char
  | 0 => '0' | 1 => '1' | 2 => '2' | 3 => '3' | 4 => '4'
  | 5 => '5' | 6 => '6' | 7 => '7' | 8 => '8' | _ => '9'

/-- Lowercase hexadecimal digit character for a value below sixteen,
as produced by the `\u00XX` escapes of JSON.stringify. -/
def hexDigitChar : Nat → Char
  | 0 => '0' | 1 => '1' | 2 => '2' | 3 => '3' | 4 => '4'
  | 5 => '5' | 6 => '6' | 7 => '7' | 8 => '8' | 9 => '9'
  | 10 => 'a' | 11 => 'b' | 12 => 'c' | 13 => 'd' | 14 => 'e' | _ => 'f'

/-- Numeric value of a hexadecimal digit character, as accepted by the
`\uXXXX` escape of JSON.parse. -/
def hexVal (c : Char) : Option Nat :=
  if 48 ≤ c.toNat ∧ c.toNat ≤ 57 then some (c.toNat - 48)
  else if 97 ≤ c.toNat ∧ c.toNat ≤ 102 then some (c.toNat - 87)
  else if 65 ≤ c.toNat ∧ c.toNat ≤ 70 then some (c.toNat - 55)
  else none

/-! ## The JSON value model -/

/-- Modelled from the spec: JSON-serializable JavaScript values, the value
domain of the JSON facade.  Numbers are restricted to integers (doubles are
outside the embedding); `Json.null` plays the role of JS `null`, which the
facade also uses to signal absence. -/
inductive Json where
  | null : Json
  | bool (b : Bool) : Json
  | num (n : Int) : Json
  | str (s : String) : Json
  | arr (items : List Json) : Json
  | obj (fields : List (String × Json)) : Json

/-- Test for the JS `null` value, mirroring the nullish check of the
`??` operator used by the atom bridge. -/
def Json.isNull : Json → Bool
  | .null => true
  | _ => false

/-! ## Serialization, mirroring JSON.stringify -/

/-- Escape of a single character inside a JSON string literal, exactly as
produced by JSON.stringify: quote and backslash are escaped, the five named
control escapes are used, remaining control characters use `\u00XX`, and
all other characters are emitted literally. -/
def u00Escape (n : Nat) : List Char :=
  '\\' :: 'u' :: '0' :: '0' :: hexDigitChar (n / 16) :: [hexDigitChar (n % 16)]

def escChar (c : Char) : List Char :=
  if c = '"' then ['\\', '"']
  else if c = '\\' then ['\\', '\\']
  else if c.toNat = 8 then ['\\', 'b']
  else if c.toNat = 12 then ['\\', 'f']
  else if c.toNat = 10 then ['\\', 'n']
  else if c.toNat = 13 then ['\\', 'r']
  else if c.toNat = 9 then ['\\', 't']
  else if c.toNat < 32 then u00Escape c.toNat
  else [c]

/-- Escape of a character list forming the body of a JSON string literal. -/
def escList : List Char → List Char
  | [] => []
  | c :: cs => escChar c ++ escList cs

/-- Decimal digits of a natural number, least significant first. -/
def natToRevDigits : Nat → List Char
  | 0 => []
  | n + 1 => digitChar ((n + 1) % 10) :: natToRevDigits ((n + 1) / 10)
decreasing_by exact Nat.div_lt_self (Nat.succ_pos n) (by omega)

/-- Decimal notation of a natural number, most significant digit first. -/
def natDigits (n : Nat) : List Char :=
  if n = 0 then ['0'] else (natToRevDigits n).reverse

/-- Decimal notation of an integer, as printed by JSON.stringify for
integer-valued numbers. -/
def intChars (n : Int) : List Char :=
  if n < 0 then '-' :: natDigits n.natAbs else natDigits n.natAbs

mutual

/-- Serialization of a JSON value to its character sequence, following
JSON.stringify with no indentation argument: no whitespace is emitted,
array items and object fields are comma-separated in order. -/
def stringifyVal : Json → List Char
  | .null => ("null" : String).data
  | .bool true => ("true" : String).data
  | .bool false => ("false" : String).data
  | .num n => intChars n
  | .str s => '"' :: (escList s.data ++ ['"'])
  | .arr [] => ['[', ']']
  | .arr (x :: xs) => '[' :: (stringifyItems x xs ++ [']'])
  | .obj [] => [lbrace, rbrace]
  | .obj (p :: ps) => lbrace :: (stringifyFields p ps ++ [rbrace])
termination_by v => sizeOf v

/-- Serialization of a nonempty comma-separated array item list. -/
def stringifyItems : Json → List Json → List Char
  | x, [] => stringifyVal x
  | x, y :: ys => stringifyVal x ++ ',' :: stringifyItems y ys
termination_by x xs => sizeOf x + sizeOf xs

/-- Serialization of a nonempty comma-separated object field list. -/
def stringifyFields : (String × Json) → List (String × Json) → List Char
  | (k, v), [] => '"' :: (escList k.data ++ '"' :: ':' :: stringifyVal v)
  | (k, v), p :: ps =>
      ('"' :: (escList k.data ++ '"' :: ':' :: stringifyVal v)) ++
        ',' :: stringifyFields p ps
termination_by p ps => sizeOf p + sizeOf ps

end

/-- Serialization to a string, the value handed to the engine by
`jsonStorage.setItem`. -/
def stringifyJson (v : Json) : String := String.mk (stringifyVal v)

/-! ## Parsing, mirroring JSON.parse -/

/-- Leading JSON whitespace removal. -/
def skipWs (cs : List Char) : List Char := cs.dropWhile jsWs

/-- Fold of decimal digit characters into a natural number. -/
def digitsToNat (ds : List Char) : Nat :=
  ds.foldl (fun a c => 10 * a + (c.toNat - 48)) 0

/-- Application of a decimal exponent to a mantissa.  For a nonnegative
exponent this is exact; a negative exponent only arises for non-integer
JSON numbers, whose value the integer embedding approximates by integer
division (doubles are outside the embedding). -/
def applyTen (m : Nat) (e : Int) : Int :=
  if 0 ≤ e then (m : Int) * 10 ^ e.toNat else (m : Int) / 10 ^ (-e).toNat

/-- Parse of the optional fraction part after the integer digits of a JSON
number; returns the fraction digits and the remaining input. -/
def parseFrac (cs : List Char) : Option (List Char × List Char) :=
  match cs with
  | [] => some ([], [])
  | c :: t =>
    if c = '.' then
      let fs := t.takeWhile jsDigit
      if fs = [] then none else some (fs, t.dropWhile jsDigit)
    else some ([], c :: t)

/-- Parse of the digits of an exponent part with an optional sign. -/
def parseExpDigits (sign : Bool) (cs : List Char) : Option (Int × List Char) :=
  let ds := cs.takeWhile jsDigit
  if ds = [] then none
  else
    let e : Int := (digitsToNat ds : Int)
    some (if sign then -e else e, cs.dropWhile jsDigit)

/-- Parse of the optional exponent part of a JSON number. -/
def parseExp (cs : List Char) : Option (Int × List Char) :=
  match cs with
  | [] => some (0, [])
  | c :: t =>
    if c = 'e' ∨ c = 'E' then
      match t with
      | [] => none
      | s :: t2 =>
        if s = '+' then parseExpDigits false t2
        else if s = '-' then parseExpDigits true t2
        else parseExpDigits false (s :: t2)
    else some (0, c :: t)

/-- Parse of an unsigned JSON number starting at the current position:
integer digits without a redundant leading zero, optional fraction,
optional exponent. -/
def parseUnsigned (cs : List Char) : Option (Int × List Char) :=
  let ds := cs.takeWhile jsDigit
  if ds = [] then none
  else if 2 ≤ ds.length ∧ ds.head? = some '0' then none
  else
    match parseFrac (cs.dropWhile jsDigit) with
    | none => none
    | some (fs, r1) =>
      match parseExp r1 with
      | none => none
      | some (e, r2) => some (applyTen (digitsToNat (ds ++ fs)) (e - fs.length), r2)

/-- Combined numeric value of four hexadecimal escape digits. -/
def hex4 (a b c d : Char) : Option Nat :=
  match hexVal a, hexVal b, hexVal c, hexVal d with
  | some x1, some x2, some x3, some x4 =>
    some (((x1 * 16 + x2) * 16 + x3) * 16 + x4)
  | _, _, _, _ => none

mutual

/-- Parse of the body of a JSON string literal after the opening quote,
up to and including the closing quote; returns the decoded characters and
the remaining input.  Raw control characters are rejected, as by
JSON.parse. -/
def parseStrBody : List Char → Option (List Char × List Char)
  | [] => none
  | c :: rest =>
    if c = '"' then some ([], rest)
    else if c = '\\' then parseEsc rest
    else if c.toNat < 32 then none
    else parseEscCont c rest
termination_by cs => (cs.length, 0)

/-- Continuation of string-body parsing after one decoded character. -/
def parseEscCont (c : Char) (t : List Char) : Option (List Char × List Char) :=
  match parseStrBody t with
  | some (s, r) => some (c :: s, r)
  | none => none
termination_by (t.length, 1)

/-- Parse of a JSON string escape sequence after the backslash. -/
def parseEsc : List Char → Option (List Char × List Char)
  | [] => none
  | e :: t =>
    if e = '"' then parseEscCont '"' t
    else if e = '\\' then parseEscCont '\\' t
    else if e = '/' then parseEscCont '/' t
    else if e = 'b' then parseEscCont (Char.ofNat 8) t
    else if e = 'f' then parseEscCont (Char.ofNat 12) t
    else if e = 'n' then parseEscCont (Char.ofNat 10) t
    else if e = 'r' then parseEscCont (Char.ofNat 13) t
    else if e = 't' then parseEscCont (Char.ofNat 9) t
    else if e = 'u' then parseUEsc t
    else none
termination_by cs => (cs.length, 2)

/-- Parse of the four hexadecimal digits of a `\u` escape. -/
def parseUEsc : List Char → Option (List Char × List Char)
  | h1 :: h2 :: h3 :: h4 :: t2 =>
    match hex4 h1 h2 h3 h4 with
    | none => none
    | some code => parseUCode code t2
  | _ => none
termination_by cs => (cs.length, 1)

/-- Continuation of a `\u` escape whose four digits denote `code`.
Escaped surrogate pairs are combined into one character; a lone escaped
surrogate is rejected (such JS strings are not representable as Lean
strings and are outside the embedding). -/
def parseUCode (code : Nat) (t2 : List Char) : Option (List Char × List Char) :=
  if 55296 ≤ code ∧ code ≤ 56319 then
    match t2 with
    | b :: u :: g1 :: g2 :: g3 :: g4 :: t3 =>
      if b = '\\' ∧ u = 'u' then
        match hex4 g1 g2 g3 g4 with
        | none => none
        | some low =>
          if 56320 ≤ low ∧ low ≤ 57343 then
            parseEscCont
              (Char.ofNat (65536 + (code - 55296) * 1024 + (low - 56320))) t3
          else none
      else none
    | _ => none
  else if 56320 ≤ code ∧ code ≤ 57343 then none
  else parseEscCont (Char.ofNat code) t2
termination_by (t2.length + 1, 0)

end

mutual

/-- Fuel-indexed parse of one JSON value, following the JSON grammar of
JSON.parse: leading whitespace, then a literal, string, number, array or
object.  The fuel only bounds nesting depth; the top-level entry point
supplies enough fuel for any input. -/
def parseVal : Nat → List Char → Option (Json × List Char)
  | 0, _ => none
  | fuel + 1, cs =>
    match skipWs cs with
    | [] => none
    | c :: rest =>
      if c = 'n' then
        match rest with
        | 'u' :: 'l' :: 'l' :: r => some (Json.null, r)
        | _ => none
      else if c = 't' then
        match rest with
        | 'r' :: 'u' :: 'e' :: r => some (Json.bool true, r)
        | _ => none
      else if c = 'f' then
        match rest with
        | 'a' :: 'l' :: 's' :: 'e' :: r => some (Json.bool false, r)
        | _ => none
      else if c = '"' then
        match parseStrBody rest with
        | some (s, r) => some (Json.str (String.mk s), r)
        | none => none
      else if c = '[' then
        match skipWs rest with
        | [] => none
        | d :: r2 =>
          if d = ']' then some (Json.arr [], r2)
          else
            match parseArrItems fuel (d :: r2) with
            | some (vs, r3) => some (Json.arr vs, r3)
            | none => none
      else if c = lbrace then
        match skipWs rest with
        | [] => none
        | d :: r2 =>
          if d = rbrace then some (Json.obj [], r2)
          else
            match parseObjItems fuel (d :: r2) with
            | some (ps, r3) => some (Json.obj ps, r3)
            | none => none
      else if c = '-' then
        match parseUnsigned rest with
        | some (n, r) => some (Json.num (-n), r)
        | none => none
      else if jsDigit c then
        match parseUnsigned (c :: rest) with
        | some (n, r) => some (Json.num n, r)
        | none => none
      else none

/-- Fuel-indexed parse of the comma-separated items of a nonempty JSON
array, up to and including the closing bracket. -/
def parseArrItems : Nat → List Char → Option (List Json × List Char)
  | 0, _ => none
  | fuel + 1, cs =>
    match parseVal fuel cs with
    | none => none
    | some (v, r) =>
      match skipWs r with
      | [] => none
      | d :: r2 =>
        if d = ',' then
          match parseArrItems fuel r2 with
          | some (vs, r3) => some (v :: vs, r3)
          | none => none
        else if d = ']' then some ([v], r2)
        else none

/-- Fuel-indexed parse of the comma-separated fields of a nonempty JSON
object, up to and including the closing brace. -/
def parseObjItems : Nat → List Char → Option (List (String × Json) × List Char)
  | 0, _ => none
  | fuel + 1, cs =>
    match skipWs cs with
    | [] => none
    | c :: rest =>
      if c = '"' then
        match parseStrBody rest with
        | none => none
        | some (kcs, r1) =>
          match skipWs r1 with
          | [] => none
          | d :: r2 =>
            if d = ':' then
              match parseVal fuel r2 with
              | none => none
              | some (v, r3) =>
                match skipWs r3 with
                | [] => none
                | e :: r4 =>
                  if e = ',' then
                    match parseObjItems fuel r4 with
                    | some (ps, r5) => some ((String.mk kcs, v) :: ps, r5)
                    | none => none
                  else if e = rbrace then some ([(String.mk kcs, v)], r4)
                  else none
            else none
      else none

end

/-- Restatement of the dispatch on the first significant character of a
JSON value, used to phrase one-step reduction lemmas about `parseVal`. -/
def parseValCore (fuel : Nat) (c : Char) (rest : List Char) :
    Option (Json × List Char) :=
  if c = 'n' then
    match rest with
    | 'u' :: 'l' :: 'l' :: r => some (Json.null, r)
    | _ => none
  else if c = 't' then
    match rest with
    | 'r' :: 'u' :: 'e' :: r => some (Json.bool true, r)
    | _ => none
  else if c = 'f' then
    match rest with
    | 'a' :: 'l' :: 's' :: 'e' :: r => some (Json.bool false, r)
    | _ => none
  else if c = '"' then
    match parseStrBody rest with
    | some (s, r) => some (Json.str (String.mk s), r)
    | none => none
  else if c = '[' then
    match skipWs rest with
    | [] => none
    | d :: r2 =>
      if d = ']' then some (Json.arr [], r2)
      else
        match parseArrItems fuel (d :: r2) with
        | some (vs, r3) => some (Json.arr vs, r3)
        | none => none
  else if c = lbrace then
    match skipWs rest with
    | [] => none
    | d :: r2 =>
      if d = rbrace then some (Json.obj [], r2)
      else
        match parseObjItems fuel (d :: r2) with
        | some (ps, r3) => some (Json.obj ps, r3)
        | none => none
  else if c = '-' then
    match parseUnsigned rest with
    | some (n, r) => some (Json.num (-n), r)
    | none => none
  else if jsDigit c then
    match parseUnsigned (c :: rest) with
    | some (n, r) => some (Json.num n, r)
    | none => none
  else none

/-- Top-level JSON.parse model: parse one value and require that only
whitespace remains.  The fuel argument bounds nesting depth; one unit per
input character plus one is always sufficient, since every nesting level
consumes at least one character. -/
def parseJson (s : String) : Option Json :=
  match parseVal (s.data.length + 1) s.data with
  | some (v, rest) => if skipWs rest = [] then some v else none
  | none => none

/-! ## The MMKV engine model

Modelled from the spec: the external storage engine boundary (section 6),
a synchronous in-process key-value engine exposing
`getString/getNumber/getBoolean/set/remove/clearAll/getAllKeys/contains`
keyed by string.  The engine state is an association list of typed values;
a fault oracle records which engine calls throw, so the try/catch policy of
the facade layer is observable in the embedding. -/

/-- Typed values held by the MMKV engine. -/
inductive EngineVal where
  | vstr (s : String) : EngineVal
  | vnum (n : Int) : EngineVal
  | vbool (b : Bool) : EngineVal

/-- Engine state: an association list from keys to typed values, with at
most one entry per key. -/
abbrev Store := List (String × EngineVal)

/-- Lookup of the value stored under a key. -/
def findVal : Store → String → Option EngineVal
  | [], _ => none
  | (k', v) :: t, k => if k' = k then some v else findVal t k

/-- Removal of every entry under a key. -/
def eraseKey : Store → String → Store
  | [], _ => []
  | (k', v) :: t, k => if k' = k then eraseKey t k else (k', v) :: eraseKey t k

/-- Fault oracle: which engine calls throw.  Each facade operation wraps
its engine call in try/catch, so these are the only fault sources of the
layer. -/
structure FaultSpec where
  failGetString : String → Bool
  failGetNumber : String → Bool
  failGetBoolean : String → Bool
  failSet : String → Bool
  failRemove : String → Bool
  failClear : Bool
  failGetAllKeys : Bool
  failContains : String → Bool

/-- Modelled from the spec: `storage.getString` returns the string stored
under the key, or undefined when the key is absent or holds a value of a
different type. -/
def engineGetString (f : FaultSpec) (st : Store) (k : String) :
    Except Unit (Option String) :=
  if f.failGetString k then .error ()
  else .ok (match findVal st k with
    | some (.vstr s) => some s
    | _ => none)

/-- Modelled from the spec: `storage.getNumber`, the number-typed read. -/
def engineGetNumber (f : FaultSpec) (st : Store) (k : String) :
    Except Unit (Option Int) :=
  if f.failGetNumber k then .error ()
  else .ok (match findVal st k with
    | some (.vnum n) => some n
    | _ => none)

/-- Modelled from the spec: `storage.getBoolean`, the boolean-typed read. -/
def engineGetBoolean (f : FaultSpec) (st : Store) (k : String) :
    Except Unit (Option Bool) :=
  if f.failGetBoolean k then .error ()
  else .ok (match findVal st k with
    | some (.vbool b) => some b
    | _ => none)

/-- Modelled from the spec: `storage.set` with a string value; replaces any
previous entry under the key. -/
def engineSetStr (f : FaultSpec) (st : Store) (k : String) (v : String) :
    Except Unit Store :=
  if f.failSet k then .error () else .ok ((k, .vstr v) :: eraseKey st k)

/-- Modelled from the spec: `storage.set` with a number value. -/
def engineSetNum (f : FaultSpec) (st : Store) (k : String) (v : Int) :
    Except Unit Store :=
  if f.failSet k then .error () else .ok ((k, .vnum v) :: eraseKey st k)

/-- Modelled from the spec: `storage.set` with a boolean value. -/
def engineSetBool (f : FaultSpec) (st : Store) (k : String) (v : Bool) :
    Except Unit Store :=
  if f.failSet k then .error () else .ok ((k, .vbool v) :: eraseKey st k)

/-- Modelled from the spec: `storage.remove`, deleting one key. -/
def engineRemove (f : FaultSpec) (st : Store) (k : String) :
    Except Unit Store :=
  if f.failRemove k then .error () else .ok (eraseKey st k)

/-- Modelled from the spec: `storage.clearAll`, deleting every key. -/
def engineClearAll (f : FaultSpec) (st : Store) : Except Unit Store :=
  if f.failClear then .error () else .ok []

/-- Modelled from the spec: `storage.getAllKeys`, enumerating all keys. -/
def engineGetAllKeys (f : FaultSpec) (st : Store) :
    Except Unit (List String) :=
  if f.failGetAllKeys then .error () else .ok (st.map Prod.fst)

/-- Modelled from the spec: `storage.contains`, the existence check. -/
def engineContains (f : FaultSpec) (st : Store) (k : String) :
    Except Unit Bool :=
  if f.failContains k then .error () else .ok (findVal st k).isSome

/-! ## The typed storage facade, translated from src/utils (storage module)

Each operation is the direct translation of the corresponding source
function: the engine call inside `try`, with the `catch` branch returning
the default (null, no-op state, empty list, false) after logging.  Logging
has no observable effect on callers and is not modelled. -/

namespace localStorage

/-- Translation of `localStorage.getItem`: `storage.getString(key) ?? null`
inside try/catch returning null. -/
def getItem (f : FaultSpec) (st : Store) (key : String) : Option String :=
  match engineGetString f st key with
  | .error _ => none
  | .ok value => value

/-- Translation of `localStorage.setItem`: `storage.set(key, value)` inside
try/catch; on fault the state is unchanged. -/
def setItem (f : FaultSpec) (st : Store) (key : String) (value : String) : Store :=
  match engineSetStr f st key value with
  | .error _ => st
  | .ok st' => st'

/-- Translation of `localStorage.removeItem`: `storage.remove(key)` inside
try/catch. -/
def removeItem (f : FaultSpec) (st : Store) (key : String) : Store :=
  match engineRemove f st key with
  | .error _ => st
  | .ok st' => st'

/-- Translation of `localStorage.clear`: `storage.clearAll()` inside
try/catch. -/
def clear (f : FaultSpec) (st : Store) : Store :=
  match engineClearAll f st with
  | .error _ => st
  | .ok st' => st'

/-- Translation of `localStorage.getAllKeys`: `storage.getAllKeys()` inside
try/catch returning the empty array. -/
def getAllKeys (f : FaultSpec) (st : Store) : List String :=
  match engineGetAllKeys f st with
  | .error _ => []
  | .ok ks => ks

/-- Translation of `localStorage.hasKey`: `storage.contains(key)` inside
try/catch returning false. -/
def hasKey (f : FaultSpec) (st : Store) (key : String) : Bool :=
  match engineContains f st key with
  | .error _ => false
  | .ok b => b

end localStorage

namespace jsonStorage

/-- Translation of `jsonStorage.getItem`: read the raw string, return null
when the engine call faults, when the value is falsy (undefined or the
empty string), or when `JSON.parse` throws; otherwise the parsed value.
`Json.null` is the JS null returned by the source. -/
def getItem (f : FaultSpec) (st : Store) (key : String) : Json :=
  match engineGetString f st key with
  | .error _ => .null
  | .ok none => .null
  | .ok (some s) =>
    if s = "" then .null
    else
      match parseJson s with
      | some v => v
      | none => .null

/-- Translation of `jsonStorage.setItem`: `JSON.stringify` the value and
`storage.set` the resulting string inside try/catch. -/
def setItem (f : FaultSpec) (st : Store) (key : String) (value : Json) : Store :=
  match engineSetStr f st key (stringifyJson value) with
  | .error _ => st
  | .ok st' => st'

/-- Translation of `jsonStorage.removeItem`: delegates to
`localStorage.removeItem`. -/
def removeItem (f : FaultSpec) (st : Store) (key : String) : Store :=
  localStorage.removeItem f st key

end jsonStorage

namespace numberStorage

/-- Translation of `numberStorage.getItem`:
`storage.getNumber(key) ?? null` inside try/catch returning null. -/
def getItem (f : FaultSpec) (st : Store) (key : String) : Option Int :=
  match engineGetNumber f st key with
  | .error _ => none
  | .ok value => value

/-- Translation of `numberStorage.setItem`: `storage.set(key, value)` with
a number inside try/catch. -/
def setItem (f : FaultSpec) (st : Store) (key : String) (value : Int) : Store :=
  match engineSetNum f st key value with
  | .error _ => st
  | .ok st' => st'

/-- Translation of `numberStorage.removeItem`: delegates to
`localStorage.removeItem`. -/
def removeItem (f : FaultSpec) (st : Store) (key : String) : Store :=
  localStorage.removeItem f st key

end numberStorage

namespace booleanStorage

/-- Translation of `booleanStorage.getItem`:
`storage.getBoolean(key) ?? null` inside try/catch returning null. -/
def getItem (f : FaultSpec) (st : Store) (key : String) : Option Bool :=
  match engineGetBoolean f st key with
  | .error _ => none
  | .ok value => value

/-- Translation of `booleanStorage.setItem`: `storage.set(key, value)` with
a boolean inside try/catch. -/
def setItem (f : FaultSpec) (st : Store) (key : String) (value : Bool) : Store :=
  match engineSetBool f st key value with
  | .error _ => st
  | .ok st' => st'

/-- Translation of `booleanStorage.removeItem`: delegates to
`localStorage.removeItem`. -/
def removeItem (f : FaultSpec) (st : Store) (key : String) : Store :=
  localStorage.removeItem f st key

end booleanStorage

/-! ## The persisted-atom bridge -/

/-- Translation of the storage configuration of `atomWithMMKV` combined
with a fact modelled from the spec: with `getOnInit: true`, the first read
of the atom created by `jotai/utils.atomWithStorage` invokes the configured
`getItem` on the storage key.  The configured `getItem` (source lines
20 to 27) is `jsonStorage.getItem(storageKey) ?? initialValue` inside a
try/catch returning `initialValue`; since the facade never throws, the
catch branch is unreachable. -/
def atomWithMMKV_firstRead (initialValue : Json) (f : FaultSpec)
    (st : Store) (key : String) : Json :=
  let value := jsonStorage.getItem f st key
  if value.isNull then initialValue else value

/-! ## The debounce helper model

Modelled from the spec: `createDebouncedAtom` keeps at most one pending
timer per debounced atom (the closure WeakMap is keyed by the single base
atom).  A write clears any pending timer and schedules a commit of the
written value; when the timer fires it commits the pending value to the
base atom.  Real time is abstracted into event order on the single-threaded
event queue: a sequence of writes issued within less than the delay window
is exactly a trace in which no fire event interleaves the writes.  Write
payloads are modelled as plain values (the claims only exercise value
writes, not updater functions). -/

/-- State of one debounced atom: the base atom value, the pending scheduled
commit if a timer is live, and a counter of commits performed on the base
atom. -/
structure DebState (T : Type) where
  base : T
  pending : Option T
  commits : Nat

/-- Events of the debounce state machine: a write to the debounced atom, or
the firing of the scheduled timer. -/
inductive DebEvent (T : Type) where
  | write (v : T) : DebEvent T
  | fire : DebEvent T

/-- One step of the debounce state machine, translated from the write
function of `createDebouncedAtom`: a write clears the existing timeout (if
any) and schedules a commit of the new value; a fire commits the pending
value to the base atom and deletes the timer entry. -/
def debStep {T : Type} (s : DebState T) : DebEvent T → DebState T
  | .write v => ⟨s.base, some v, s.commits⟩
  | .fire =>
    match s.pending with
    | some v => ⟨v, none, s.commits + 1⟩
    | none => s

/-- Run of the debounce state machine over a trace of events. -/
def debRun {T : Type} (s : DebState T) (es : List (DebEvent T)) : DebState T :=
  es.foldl debStep s

/-! ## Auxiliary definitions for the proofs -/

/-- Boundary condition after a serialized number: the remaining input does
not begin with a character that would extend the numeric literal. -/
def numOk (rest : List Char) : Prop :=
  ∀ c, rest.head? = some c → jsDigit c = false ∧ c ≠ '.' ∧ c ≠ 'e' ∧ c ≠ 'E'

/-- Characters that can start a serialized JSON value. -/
def validStart (c : Char) : Prop :=
  jsDigit c = true ∨ c = 'n' ∨ c = 't' ∨ c = 'f' ∨ c = '"' ∨ c = '[' ∨
    c = lbrace ∨ c = '-'

mutual

/-- Parser-fuel cost of a JSON value: the number of nested
`parseVal`/`parseArrItems`/`parseObjItems` activations needed to parse its
serialization. -/
def jcost : Json → Nat
  | .arr (x :: xs) => 1 + jcostItems x xs
  | .obj (p :: ps) => 1 + jcostFields p ps
  | _ => 1
termination_by v => sizeOf v

/-- Parser-fuel cost of a nonempty array item list. -/
def jcostItems : Json → List Json → Nat
  | x, [] => 1 + jcost x
  | x, y :: ys => 1 + jcost x + jcostItems y ys
termination_by x xs => sizeOf x + sizeOf xs

/-- Parser-fuel cost of a nonempty object field list. -/
def jcostFields : (String × Json) → List (String × Json) → Nat
  | (_, v), [] => 1 + jcost v
  | (_, v), p :: ps => 1 + jcost v + jcostFields p ps
termination_by p ps => sizeOf p + sizeOf ps

end

/-- Fault oracle with no faulting call: the normal operating mode of the
engine. -/
def noFault : FaultSpec :=
  ⟨fun _ => false, fun _ => false, fun _ => false, fun _ => false,
    fun _ => false, false, false, fun _ => false⟩

/-- Fault oracle in which every engine call throws. -/
def allFail : FaultSpec :=
  ⟨fun _ => true, fun _ => true, fun _ => true, fun _ => true,
    fun _ => true, true, true, fun _ => true⟩

/-! ## Supporting lemmas: characters and digits -/

theorem char_eq_of_toNat {c d : Char} (h : c.toNat = d.toNat) : c = d := by
  rw [← Char.ofNat_toNat c, h, Char.ofNat_toNat]

theorem char_ne_of_toNat {c d : Char} (h : c.toNat ≠ d.toNat) : c ≠ d :=
  fun he => h (he ▸ rfl)

theorem jsDigit_iff {c : Char} : jsDigit c = true ↔ 48 ≤ c.toNat ∧ c.toNat ≤ 57 := by
  simp [jsDigit, Nat.ble_eq]

theorem jsWs_eq_false {c : Char} (h : 33 ≤ c.toNat) : jsWs c = false := by
  simp only [jsWs, Bool.or_eq_false_iff, beq_eq_false_iff_ne, ne_eq]
  omega

theorem skipWs_cons {c : Char} {cs : List Char} (h : jsWs c = false) :
    skipWs (c :: cs) = c :: cs := by
  simp [skipWs, List.dropWhile_cons, h]

theorem digitChar_toNat {d : Nat} (h : d < 10) : (digitChar d).toNat = 48 + d := by
  interval_cases d <;> rfl

theorem jsDigit_digitChar {d : Nat} (h : d < 10) : jsDigit (digitChar d) = true := by
  interval_cases d <;> rfl

theorem hexVal_hexDigitChar {d : Nat} (h : d < 16) : hexVal (hexDigitChar d) = some d := by
  interval_cases d <;> rfl

theorem natToRevDigits_all_digits :
    ∀ m, ∀ c ∈ natToRevDigits m, jsDigit c = true := by
  intro m
  induction m using Nat.strong_induction_on with
  | _ m ih =>
    match m with
    | 0 => intro c hc; simp [natToRevDigits] at hc
    | n + 1 =>
      intro c hc
      rw [natToRevDigits] at hc
      rcases List.mem_cons.mp hc with h | h
      · exact h ▸ jsDigit_digitChar (Nat.mod_lt _ (by omega))
      · exact ih ((n + 1) / 10) (Nat.div_lt_self (Nat.succ_pos n) (by omega)) c h

theorem natToRevDigits_msd :
    ∀ m, m ≠ 0 → ∃ d t, (natToRevDigits m).reverse = digitChar d :: t ∧ d < 10 ∧ d ≠ 0 := by
  intro m
  induction m using Nat.strong_induction_on with
  | _ m ih =>
    intro hm
    match m, hm with
    | n + 1, _ =>
      rw [natToRevDigits, List.reverse_cons]
      by_cases hq : (n + 1) / 10 = 0
      · refine ⟨(n + 1) % 10, [], ?_, Nat.mod_lt _ (by omega), ?_⟩
        · rw [hq]; simp [natToRevDigits]
        · omega
      · obtain ⟨d, t, ht, hd10, hd0⟩ :=
          ih ((n + 1) / 10) (Nat.div_lt_self (Nat.succ_pos n) (by omega)) hq
        exact ⟨d, t ++ [digitChar ((n + 1) % 10)], by rw [ht]; rfl, hd10, hd0⟩

theorem digitsToNat_append_digit (l : List Char) (c : Char) :
    digitsToNat (l ++ [c]) = 10 * digitsToNat l + (c.toNat - 48) := by
  simp [digitsToNat, List.foldl_append]

theorem digitsToNat_rev (m : Nat) :
    digitsToNat (natToRevDigits m).reverse = m := by
  induction m using Nat.strong_induction_on with
  | _ m ih =>
    match m with
    | 0 => simp [natToRevDigits, digitsToNat]
    | n + 1 =>
      rw [natToRevDigits, List.reverse_cons, digitsToNat_append_digit,
        ih ((n + 1) / 10) (Nat.div_lt_self (Nat.succ_pos n) (by omega)),
        digitChar_toNat (Nat.mod_lt _ (by omega))]
      omega

theorem natDigits_all_digits (m : Nat) : ∀ c ∈ natDigits m, jsDigit c = true := by
  intro c hc
  unfold natDigits at hc
  by_cases h : m = 0
  · simp [h] at hc; subst hc; rfl
  · rw [if_neg h, List.mem_reverse] at hc
    exact natToRevDigits_all_digits m c hc

theorem digitsToNat_natDigits (m : Nat) : digitsToNat (natDigits m) = m := by
  unfold natDigits
  by_cases h : m = 0
  · subst h; rfl
  · rw [if_neg h]; exact digitsToNat_rev m

theorem natDigits_head :
    ∀ m, ∃ d t, natDigits m = digitChar d :: t ∧ d < 10 ∧ (m ≠ 0 → d ≠ 0) := by
  intro m
  by_cases h : m = 0
  · exact ⟨0, [], by subst h; rfl, by omega, fun hc => absurd h hc⟩
  · obtain ⟨d, t, ht, hd10, hd0⟩ := natToRevDigits_msd m h
    exact ⟨d, t, by rw [natDigits, if_neg h, ht], hd10, fun _ => hd0⟩

theorem natDigits_no_leading_zero (m : Nat) :
    ¬(2 ≤ (natDigits m).length ∧ (natDigits m).head? = some '0') := by
  obtain ⟨d, t, ht, hd10, hd0⟩ := natDigits_head m
  rintro ⟨hlen, hhead⟩
  by_cases h : m = 0
  · subst h; simp [natDigits] at hlen
  · rw [ht] at hhead
    simp only [List.head?_cons, Option.some.injEq] at hhead
    have h1 : (digitChar d).toNat = ('0').toNat := by rw [hhead]
    have h2 : ('0').toNat = 48 := rfl
    rw [digitChar_toNat hd10, h2] at h1
    exact hd0 h (by omega)

theorem takeWhile_append_of {p : Char → Bool} :
    ∀ (l r : List Char), (∀ c ∈ l, p c = true) →
      (∀ c, r.head? = some c → p c = false) →
      (l ++ r).takeWhile p = l ∧ (l ++ r).dropWhile p = r := by
  intro l
  induction l with
  | nil =>
    intro r _ hr
    match r with
    | [] => exact ⟨rfl, rfl⟩
    | c :: r' =>
      have := hr c rfl
      simp [List.takeWhile_cons, List.dropWhile_cons, this]
  | cons a l ih =>
    intro r hl hr
    have ha : p a = true := hl a (List.mem_cons_self a l)
    have := ih r (fun c hc => hl c (List.mem_cons_of_mem a hc)) hr
    simp [List.takeWhile_cons, List.dropWhile_cons, ha, this.1, this.2]

/-! ## Supporting lemmas: the number round trip -/

theorem numOk_nil : numOk [] := fun c h => by simp at h

theorem numOk_cons {c : Char} {t : List Char}
    (h1 : jsDigit c = false) (h2 : c ≠ '.') (h3 : c ≠ 'e') (h4 : c ≠ 'E') :
    numOk (c :: t) := by
  intro d hd
  simp only [List.head?_cons, Option.some.injEq] at hd
  exact hd ▸ ⟨h1, h2, h3, h4⟩

theorem numOk_comma (t : List Char) : numOk (',' :: t) :=
  numOk_cons (by decide) (by decide) (by decide) (by decide)

theorem numOk_rbracket (t : List Char) : numOk (']' :: t) :=
  numOk_cons (by decide) (by decide) (by decide) (by decide)

theorem numOk_rbrace (t : List Char) : numOk (rbrace :: t) :=
  numOk_cons (by decide) (by decide) (by decide) (by decide)

theorem parseFrac_numOk {rest : List Char} (h : numOk rest) :
    parseFrac rest = some ([], rest) := by
  match rest with
  | [] => rfl
  | c :: t =>
    have := h c rfl
    simp [parseFrac, this.2.1]

theorem parseExp_numOk {rest : List Char} (h : numOk rest) :
    parseExp rest = some (0, rest) := by
  match rest with
  | [] => rfl
  | c :: t =>
    have := h c rfl
    simp [parseExp, this.2.2.1, this.2.2.2]

theorem parseUnsigned_natDigits (m : Nat) {rest : List Char} (h : numOk rest) :
    parseUnsigned (natDigits m ++ rest) = some ((m : Int), rest) := by
  obtain ⟨htake, hdrop⟩ :=
    takeWhile_append_of (natDigits m) rest (natDigits_all_digits m)
      (fun c hc => ((h c hc).1))
  have hne : natDigits m ≠ [] := by
    obtain ⟨d, t, ht, _, _⟩ := natDigits_head m
    rw [ht]; exact List.cons_ne_nil _ _
  rw [parseUnsigned]
  simp only [htake, hdrop]
  rw [if_neg hne, if_neg (natDigits_no_leading_zero m), parseFrac_numOk h]
  simp only [parseExp_numOk h]
  simp [applyTen, digitsToNat_natDigits]

/-! ## Supporting lemmas: the string round trip -/

theorem parseStrBody_quote (t : List Char) : parseStrBody ('"' :: t) = some ([], t) := by
  rw [parseStrBody, if_pos rfl]

theorem parseStrBody_bs (t : List Char) : parseStrBody ('\\' :: t) = parseEsc t := by
  rw [parseStrBody, if_neg (by decide), if_pos rfl]

theorem parseStrBody_lit {c : Char} (t : List Char)
    (h1 : ¬c = '"') (h2 : ¬c = '\\') (h3 : ¬c.toNat < 32) :
    parseStrBody (c :: t) = parseEscCont c t := by
  rw [parseStrBody, if_neg h1, if_neg h2, if_neg h3]

theorem parseEscCont_of_eq {c : Char} {t s rest : List Char}
    (h : parseStrBody t = some (s, rest)) :
    parseEscCont c t = some (c :: s, rest) := by
  rw [parseEscCont, h]

theorem parseEsc_quote (t : List Char) : parseEsc ('"' :: t) = parseEscCont '"' t := by
  rw [parseEsc, if_pos rfl]

theorem parseEsc_bs (t : List Char) : parseEsc ('\\' :: t) = parseEscCont '\\' t := by
  rw [parseEsc, if_neg (by decide), if_pos rfl]

theorem parseEsc_b (t : List Char) : parseEsc ('b' :: t) = parseEscCont (Char.ofNat 8) t := by
  rw [parseEsc, if_neg (by decide), if_neg (by decide), if_neg (by decide), if_pos rfl]

theorem parseEsc_f (t : List Char) : parseEsc ('f' :: t) = parseEscCont (Char.ofNat 12) t := by
  rw [parseEsc, if_neg (by decide), if_neg (by decide), if_neg (by decide),
    if_neg (by decide), if_pos rfl]

theorem parseEsc_n (t : List Char) : parseEsc ('n' :: t) = parseEscCont (Char.ofNat 10) t := by
  rw [parseEsc, if_neg (by decide), if_neg (by decide), if_neg (by decide),
    if_neg (by decide), if_neg (by decide), if_pos rfl]

theorem parseEsc_r (t : List Char) : parseEsc ('r' :: t) = parseEscCont (Char.ofNat 13) t := by
  rw [parseEsc, if_neg (by decide), if_neg (by decide), if_neg (by decide),
    if_neg (by decide), if_neg (by decide), if_neg (by decide), if_pos rfl]

theorem parseEsc_t (t : List Char) : parseEsc ('t' :: t) = parseEscCont (Char.ofNat 9) t := by
  rw [parseEsc, if_neg (by decide), if_neg (by decide), if_neg (by decide),
    if_neg (by decide), if_neg (by decide), if_neg (by decide), if_neg (by decide), if_pos rfl]

theorem parseEsc_u (t : List Char) : parseEsc ('u' :: t) = parseUEsc t := by
  rw [parseEsc, if_neg (by decide), if_neg (by decide), if_neg (by decide),
    if_neg (by decide), if_neg (by decide), if_neg (by decide), if_neg (by decide),
    if_neg (by decide), if_pos rfl]

theorem parseUEsc_00 {d1 d2 : Char} {x1 x2 : Nat} (t2 : List Char)
    (hv1 : hexVal d1 = some x1) (hv2 : hexVal d2 = some x2)
    (hlt : x1 * 16 + x2 < 32) :
    parseUEsc ('0' :: '0' :: d1 :: d2 :: t2) = parseEscCont (Char.ofNat (x1 * 16 + x2)) t2 := by
  have hz : hexVal '0' = some 0 := rfl
  have h4 : hex4 '0' '0' d1 d2 = some (x1 * 16 + x2) := by
    rw [hex4, hz, hv1, hv2]
    show some (((0 * 16 + 0) * 16 + x1) * 16 + x2) = some (x1 * 16 + x2)
    congr 1
    ring
  rw [parseUEsc, h4]
  show parseUCode (x1 * 16 + x2) t2 = parseEscCont (Char.ofNat (x1 * 16 + x2)) t2
  rw [parseUCode.eq_def,
    if_neg (show ¬(55296 ≤ x1 * 16 + x2 ∧ x1 * 16 + x2 ≤ 56319) by omega),
    if_neg (show ¬(56320 ≤ x1 * 16 + x2 ∧ x1 * 16 + x2 ≤ 57343) by omega)]

theorem parseStrBody_escList :
    ∀ (s rest : List Char), parseStrBody (escList s ++ '"' :: rest) = some (s, rest) := by
  intro s
  induction s with
  | nil => intro rest; rw [escList, List.nil_append, parseStrBody_quote]
  | cons c s ih =>
    intro rest
    rw [escList, List.append_assoc, escChar]
    by_cases h1 : c = '"'
    · subst h1; rw [if_pos rfl]
      simp only [List.cons_append, List.nil_append]
      rw [parseStrBody_bs, parseEsc_quote, parseEscCont_of_eq (ih rest)]
    · rw [if_neg h1]
      by_cases h2 : c = '\\'
      · subst h2; rw [if_pos rfl]
        simp only [List.cons_append, List.nil_append]
        rw [parseStrBody_bs, parseEsc_bs, parseEscCont_of_eq (ih rest)]
      · rw [if_neg h2]
        by_cases h3 : c.toNat = 8
        · rw [if_pos h3]
          have hc : Char.ofNat 8 = c := by rw [← h3, Char.ofNat_toNat]
          simp only [List.cons_append, List.nil_append]
          rw [parseStrBody_bs, parseEsc_b, parseEscCont_of_eq (ih rest), hc]
        · rw [if_neg h3]
          by_cases h4 : c.toNat = 12
          · rw [if_pos h4]
            have hc : Char.ofNat 12 = c := by rw [← h4, Char.ofNat_toNat]
            simp only [List.cons_append, List.nil_append]
            rw [parseStrBody_bs, parseEsc_f, parseEscCont_of_eq (ih rest), hc]
          · rw [if_neg h4]
            by_cases h5 : c.toNat = 10
            · rw [if_pos h5]
              have hc : Char.ofNat 10 = c := by rw [← h5, Char.ofNat_toNat]
              simp only [List.cons_append, List.nil_append]
              rw [parseStrBody_bs, parseEsc_n, parseEscCont_of_eq (ih rest), hc]
            · rw [if_neg h5]
              by_cases h6 : c.toNat = 13
              · rw [if_pos h6]
                have hc : Char.ofNat 13 = c := by rw [← h6, Char.ofNat_toNat]
                simp only [List.cons_append, List.nil_append]
                rw [parseStrBody_bs, parseEsc_r, parseEscCont_of_eq (ih rest), hc]
              · rw [if_neg h6]
                by_cases h7 : c.toNat = 9
                · rw [if_pos h7]
                  have hc : Char.ofNat 9 = c := by rw [← h7, Char.ofNat_toNat]
                  simp only [List.cons_append, List.nil_append]
                  rw [parseStrBody_bs, parseEsc_t, parseEscCont_of_eq (ih rest), hc]
                · rw [if_neg h7]
                  by_cases h8 : c.toNat < 32
                  · rw [if_pos h8, u00Escape]
                    have hdiv : c.toNat / 16 < 16 := by omega
                    have hmod : c.toNat % 16 < 16 := by omega
                    have harith : c.toNat / 16 * 16 + c.toNat % 16 = c.toNat := by omega
                    have hc : Char.ofNat c.toNat = c := Char.ofNat_toNat c
                    simp only [List.cons_append, List.nil_append]
                    rw [parseStrBody_bs, parseEsc_u,
                      parseUEsc_00 _ (hexVal_hexDigitChar hdiv) (hexVal_hexDigitChar hmod)
                        (by omega),
                      parseEscCont_of_eq (ih rest), harith, hc]
                  · rw [if_neg h8]
                    simp only [List.cons_append, List.nil_append]
                    rw [parseStrBody_lit _ h1 h2 h8, parseEscCont_of_eq (ih rest)]

/-! ## Supporting lemmas: heads of serialized values -/

theorem rbrace_toNat : rbrace.toNat = 125 := rfl

theorem lbrace_toNat : lbrace.toNat = 123 := rfl

theorem validStart_ws {c : Char} (h : validStart c) : jsWs c = false := by
  rcases h with h | h | h | h | h | h | h | h
  · exact jsWs_eq_false (by have := jsDigit_iff.mp h; omega)
  · subst h; decide
  · subst h; decide
  · subst h; decide
  · subst h; decide
  · subst h; decide
  · subst h; decide
  · subst h; decide

theorem validStart_ne_rbracket {c : Char} (h : validStart c) : c ≠ ']' := by
  have h93 : (']').toNat = 93 := rfl
  rcases h with h | h | h | h | h | h | h | h
  · exact char_ne_of_toNat (by have := jsDigit_iff.mp h; omega)
  · subst h; decide
  · subst h; decide
  · subst h; decide
  · subst h; decide
  · subst h; decide
  · subst h; decide
  · subst h; decide

theorem validStart_ne_rbrace {c : Char} (h : validStart c) : c ≠ rbrace := by
  rcases h with h | h | h | h | h | h | h | h
  · exact char_ne_of_toNat (by rw [rbrace_toNat]; have := jsDigit_iff.mp h; omega)
  · subst h; decide
  · subst h; decide
  · subst h; decide
  · subst h; decide
  · subst h; decide
  · subst h; decide
  · subst h; decide

theorem stringify_head (v : Json) :
    ∃ c t, stringifyVal v = c :: t ∧ validStart c := by
  match v with
  | .null => exact ⟨'n', _, by rw [stringifyVal], by right; left; rfl⟩
  | .bool true => exact ⟨'t', _, by rw [stringifyVal], by right; right; left; rfl⟩
  | .bool false => exact ⟨'f', _, by rw [stringifyVal], by right; right; right; left; rfl⟩
  | .num n =>
    rw [stringifyVal, intChars]
    by_cases hn : n < 0
    · rw [if_pos hn]
      exact ⟨'-', _, rfl, by right; right; right; right; right; right; right; rfl⟩
    · rw [if_neg hn]
      obtain ⟨d, t, ht, hd10, _⟩ := natDigits_head n.natAbs
      exact ⟨digitChar d, t, ht, Or.inl (jsDigit_digitChar hd10)⟩
  | .str s => exact ⟨'"', _, by rw [stringifyVal], by right; right; right; right; left; rfl⟩
  | .arr [] => exact ⟨'[', _, by rw [stringifyVal], by right; right; right; right; right; left; rfl⟩
  | .arr (x :: xs) =>
    exact ⟨'[', _, by rw [stringifyVal], by right; right; right; right; right; left; rfl⟩
  | .obj [] =>
    exact ⟨lbrace, _, by rw [stringifyVal], by right; right; right; right; right; right; left; rfl⟩
  | .obj (p :: ps) =>
    exact ⟨lbrace, _, by rw [stringifyVal], by right; right; right; right; right; right; left; rfl⟩

theorem stringifyItems_head (x : Json) (xs : List Json) :
    ∃ c t, stringifyItems x xs = c :: t ∧ validStart c := by
  obtain ⟨c, t, ht, hv⟩ := stringify_head x
  match xs with
  | [] => exact ⟨c, t, by rw [stringifyItems, ht], hv⟩
  | y :: ys =>
    exact ⟨c, t ++ ',' :: stringifyItems y ys,
      by rw [stringifyItems, ht, List.cons_append], hv⟩

theorem stringifyFields_head (p : String × Json) (ps : List (String × Json)) :
    ∃ t, stringifyFields p ps = '"' :: t := by
  match p, ps with
  | (k, v), [] => exact ⟨_, by rw [stringifyFields]⟩
  | (k, v), q :: qs =>
    exact ⟨_, by rw [stringifyFields, List.cons_append]⟩

/-! ## Supporting lemmas: one-step reductions of the value parser -/

theorem parseVal_cons (fuel : Nat) {c : Char} (rest : List Char) (h : jsWs c = false) :
    parseVal (fuel + 1) (c :: rest) = parseValCore fuel c rest := by
  rw [parseVal, skipWs_cons h]
  simp only [parseValCore.eq_def]

theorem parseVal_null (fuel : Nat) (rest : List Char) :
    parseVal (fuel + 1) ('n' :: 'u' :: 'l' :: 'l' :: rest) = some (Json.null, rest) := by
  rw [parseVal_cons fuel _ (by decide), parseValCore.eq_def, if_pos rfl]
  rfl

theorem parseVal_true (fuel : Nat) (rest : List Char) :
    parseVal (fuel + 1) ('t' :: 'r' :: 'u' :: 'e' :: rest) = some (Json.bool true, rest) := by
  rw [parseVal_cons fuel _ (by decide), parseValCore.eq_def, if_neg (by decide), if_pos rfl]
  rfl

theorem parseVal_false (fuel : Nat) (rest : List Char) :
    parseVal (fuel + 1) ('f' :: 'a' :: 'l' :: 's' :: 'e' :: rest) = some (Json.bool false, rest) := by
  rw [parseVal_cons fuel _ (by decide), parseValCore.eq_def, if_neg (by decide),
    if_neg (by decide), if_pos rfl]
  rfl

theorem parseVal_quote (fuel : Nat) (rest : List Char) :
    parseVal (fuel + 1) ('"' :: rest) =
      match parseStrBody rest with
      | some (s, r) => some (Json.str (String.mk s), r)
      | none => none := by
  rw [parseVal_cons fuel _ (by decide), parseValCore.eq_def, if_neg (by decide),
    if_neg (by decide), if_neg (by decide), if_pos rfl]

theorem parseVal_lbracket (fuel : Nat) (rest : List Char) :
    parseVal (fuel + 1) ('[' :: rest) =
      match skipWs rest with
      | [] => none
      | d :: r2 =>
        if d = ']' then some (Json.arr [], r2)
        else
          match parseArrItems fuel (d :: r2) with
          | some (vs, r3) => some (Json.arr vs, r3)
          | none => none := by
  rw [parseVal_cons fuel _ (by decide), parseValCore.eq_def, if_neg (by decide),
    if_neg (by decide), if_neg (by decide), if_neg (by decide), if_pos rfl]

theorem parseVal_lbrace (fuel : Nat) (rest : List Char) :
    parseVal (fuel + 1) (lbrace :: rest) =
      match skipWs rest with
      | [] => none
      | d :: r2 =>
        if d = rbrace then some (Json.obj [], r2)
        else
          match parseObjItems fuel (d :: r2) with
          | some (ps, r3) => some (Json.obj ps, r3)
          | none => none := by
  rw [parseVal_cons fuel _ (by decide), parseValCore.eq_def, if_neg (by decide),
    if_neg (by decide), if_neg (by decide), if_neg (by decide), if_neg (by decide),
    if_pos rfl]

theorem parseVal_minus (fuel : Nat) (rest : List Char) :
    parseVal (fuel + 1) ('-' :: rest) =
      match parseUnsigned rest with
      | some (n, r) => some (Json.num (-n), r)
      | none => none := by
  rw [parseVal_cons fuel _ (by decide), parseValCore.eq_def, if_neg (by decide),
    if_neg (by decide), if_neg (by decide), if_neg (by decide), if_neg (by decide),
    if_neg (by decide), if_pos rfl]

theorem parseVal_digit (fuel : Nat) {c : Char} (t : List Char) (h : jsDigit c = true) :
    parseVal (fuel + 1) (c :: t) =
      match parseUnsigned (c :: t) with
      | some (n, r) => some (Json.num n, r)
      | none => none := by
  have hb := jsDigit_iff.mp h
  have hws : jsWs c = false := jsWs_eq_false (by omega)
  have hn : c ≠ 'n' := char_ne_of_toNat (by have : ('n').toNat = 110 := rfl; omega)
  have ht : c ≠ 't' := char_ne_of_toNat (by have : ('t').toNat = 116 := rfl; omega)
  have hf : c ≠ 'f' := char_ne_of_toNat (by have : ('f').toNat = 102 := rfl; omega)
  have hq : c ≠ '"' := char_ne_of_toNat (by have : ('"').toNat = 34 := rfl; omega)
  have hlb : c ≠ '[' := char_ne_of_toNat (by have : ('[').toNat = 91 := rfl; omega)
  have hlbr : c ≠ lbrace := char_ne_of_toNat (by rw [lbrace_toNat]; omega)
  have hm : c ≠ '-' := char_ne_of_toNat (by have : ('-').toNat = 45 := rfl; omega)
  rw [parseVal_cons fuel _ hws, parseValCore.eq_def, if_neg hn, if_neg ht, if_neg hf,
    if_neg hq, if_neg hlb, if_neg hlbr, if_neg hm, if_pos h]

theorem parseArrItems_succ (fuel : Nat) (cs : List Char) :
    parseArrItems (fuel + 1) cs =
      match parseVal fuel cs with
      | none => none
      | some (v, r) =>
        match skipWs r with
        | [] => none
        | d :: r2 =>
          if d = ',' then
            match parseArrItems fuel r2 with
            | some (vs, r3) => some (v :: vs, r3)
            | none => none
          else if d = ']' then some ([v], r2)
          else none := by
  rw [parseArrItems]

theorem parseObjItems_succ (fuel : Nat) (cs : List Char) :
    parseObjItems (fuel + 1) cs =
      match skipWs cs with
      | [] => none
      | c :: rest =>
        if c = '"' then
          match parseStrBody rest with
          | none => none
          | some (kcs, r1) =>
            match skipWs r1 with
            | [] => none
            | d :: r2 =>
              if d = ':' then
                match parseVal fuel r2 with
                | none => none
                | some (v, r3) =>
                  match skipWs r3 with
                  | [] => none
                  | e :: r4 =>
                    if e = ',' then
                      match parseObjItems fuel r4 with
                      | some (ps, r5) => some ((String.mk kcs, v) :: ps, r5)
                      | none => none
                    else if e = rbrace then some ([(String.mk kcs, v)], r4)
                    else none
              else none
        else none := by
  rw [parseObjItems]

theorem jcost_pos (v : Json) : 1 ≤ jcost v := by
  match v with
  | .null | .bool _ | .num _ | .str _ => simp [jcost]
  | .arr [] => simp [jcost]
  | .arr (x :: xs) => rw [jcost]; omega
  | .obj [] => simp [jcost]
  | .obj (p :: ps) => rw [jcost]; omega

theorem jcostItems_pos (x : Json) (xs : List Json) : 1 ≤ jcostItems x xs := by
  match xs with
  | [] => rw [jcostItems]; omega
  | y :: ys => rw [jcostItems]; omega

theorem jcostFields_pos (p : String × Json) (ps : List (String × Json)) :
    1 ≤ jcostFields p ps := by
  match p, ps with
  | (k, v), [] => rw [jcostFields]; omega
  | (k, v), q :: qs => rw [jcostFields]; omega

theorem string_mk_data (s : String) : String.mk s.data = s := rfl

theorem parseVal_lbracket_cons (fuel : Nat) {d : Char} (r2 : List Char)
    (hws : jsWs d = false) (hne : d ≠ ']') :
    parseVal (fuel + 1) ('[' :: d :: r2) =
      match parseArrItems fuel (d :: r2) with
      | some (vs, r3) => some (Json.arr vs, r3)
      | none => none := by
  rw [parseVal_lbracket, skipWs_cons hws]
  show (if d = ']' then some (Json.arr [], r2)
    else
      match parseArrItems fuel (d :: r2) with
      | some (vs, r3) => some (Json.arr vs, r3)
      | none => none) = _
  rw [if_neg hne]

theorem parseVal_lbrace_cons (fuel : Nat) {d : Char} (r2 : List Char)
    (hws : jsWs d = false) (hne : d ≠ rbrace) :
    parseVal (fuel + 1) (lbrace :: d :: r2) =
      match parseObjItems fuel (d :: r2) with
      | some (ps, r3) => some (Json.obj ps, r3)
      | none => none := by
  rw [parseVal_lbrace, skipWs_cons hws]
  show (if d = rbrace then some (Json.obj [], r2)
    else
      match parseObjItems fuel (d :: r2) with
      | some (ps, r3) => some (Json.obj ps, r3)
      | none => none) = _
  rw [if_neg hne]

/-! ## The round trip of serialization and parsing -/

theorem parse_stringify_all : ∀ fuel : Nat,
    (∀ v rest, jcost v ≤ fuel → numOk rest →
      parseVal fuel (stringifyVal v ++ rest) = some (v, rest)) ∧
    (∀ x xs rest, jcostItems x xs ≤ fuel →
      parseArrItems fuel (stringifyItems x xs ++ ']' :: rest) = some (x :: xs, rest)) ∧
    (∀ p ps rest, jcostFields p ps ≤ fuel →
      parseObjItems fuel (stringifyFields p ps ++ rbrace :: rest) = some (p :: ps, rest)) := by
  intro fuel
  induction fuel with
  | zero =>
    refine ⟨?_, ?_, ?_⟩
    · intro v rest hj _; exact absurd hj (by have := jcost_pos v; omega)
    · intro x xs rest hj; exact absurd hj (by have := jcostItems_pos x xs; omega)
    · intro p ps rest hj; exact absurd hj (by have := jcostFields_pos p ps; omega)
  | succ fuel ih =>
    obtain ⟨ih1, ih2, ih3⟩ := ih
    refine ⟨?_, ?_, ?_⟩
    · intro v rest hj hok
      match v with
      | .null =>
        rw [stringifyVal]
        exact parseVal_null fuel rest
      | .bool true =>
        rw [stringifyVal]
        exact parseVal_true fuel rest
      | .bool false =>
        rw [stringifyVal]
        exact parseVal_false fuel rest
      | .num n =>
        rw [stringifyVal, intChars]
        by_cases hn : n < 0
        · rw [if_pos hn]
          simp only [List.cons_append]
          rw [parseVal_minus, parseUnsigned_natDigits _ hok]
          show some (Json.num (-(n.natAbs : Int)), rest) = some (Json.num n, rest)
          rw [show -((n.natAbs : Int)) = n by omega]
        · rw [if_neg hn]
          obtain ⟨d, t, ht, hd10, _⟩ := natDigits_head n.natAbs
          rw [ht]
          simp only [List.cons_append]
          rw [parseVal_digit fuel _ (jsDigit_digitChar hd10), ← List.cons_append, ← ht,
            parseUnsigned_natDigits _ hok]
          show some (Json.num ((n.natAbs : Int)), rest) = some (Json.num n, rest)
          rw [show ((n.natAbs : Int)) = n by omega]
      | .str s =>
        rw [stringifyVal]
        simp only [List.cons_append, List.append_assoc, List.singleton_append]
        rw [parseVal_quote, parseStrBody_escList]
        show some (Json.str (String.mk s.data), rest) = some (Json.str s, rest)
        rw [string_mk_data]
      | .arr [] =>
        rw [stringifyVal]
        simp only [List.cons_append, List.nil_append]
        rw [parseVal_lbracket, skipWs_cons (show jsWs ']' = false by decide)]
        rfl
      | .arr (x :: xs) =>
        have hj2 : jcostItems x xs ≤ fuel := by rw [jcost] at hj; omega
        obtain ⟨c, t, hti, hv⟩ := stringifyItems_head x xs
        rw [stringifyVal]
        simp only [List.cons_append, List.append_assoc, List.singleton_append,
          List.nil_append]
        rw [hti]
        simp only [List.cons_append]
        rw [parseVal_lbracket_cons fuel _ (validStart_ws hv) (validStart_ne_rbracket hv),
          ← List.cons_append, ← hti, ih2 x xs rest hj2]
      | .obj [] =>
        rw [stringifyVal]
        simp only [List.cons_append, List.nil_append]
        rw [parseVal_lbrace, skipWs_cons (show jsWs rbrace = false by decide)]
        show (if rbrace = rbrace then some (Json.obj [], rest)
          else
            match parseObjItems fuel (rbrace :: rest) with
            | some (ps, r3) => some (Json.obj ps, r3)
            | none => none) = some (Json.obj [], rest)
        rw [if_pos rfl]
      | .obj (p :: ps) =>
        have hj2 : jcostFields p ps ≤ fuel := by rw [jcost] at hj; omega
        obtain ⟨t, hti⟩ := stringifyFields_head p ps
        rw [stringifyVal]
        simp only [List.cons_append, List.append_assoc, List.singleton_append,
          List.nil_append]
        rw [hti]
        simp only [List.cons_append]
        rw [parseVal_lbrace_cons fuel _ (show jsWs '"' = false by decide)
            (show ('"') ≠ rbrace by decide),
          ← List.cons_append, ← hti, ih3 p ps rest hj2]
    · intro x xs rest hj
      match xs with
      | [] =>
        have hj1 : jcost x ≤ fuel := by rw [jcostItems] at hj; omega
        rw [stringifyItems, parseArrItems_succ, ih1 x (']' :: rest) hj1 (numOk_rbracket rest)]
        rfl
      | y :: ys =>
        have hj1 : jcost x ≤ fuel := by rw [jcostItems] at hj; omega
        have hj2 : jcostItems y ys ≤ fuel := by rw [jcostItems] at hj; omega
        rw [stringifyItems, parseArrItems_succ]
        simp only [List.cons_append, List.append_assoc]
        rw [ih1 x _ hj1 (numOk_comma _)]
        show (match parseArrItems fuel (stringifyItems y ys ++ ']' :: rest) with
          | some (vs, r3) => some (x :: vs, r3)
          | none => none) = some (x :: y :: ys, rest)
        rw [ih2 y ys rest hj2]
    · intro p ps rest hj
      match p, ps with
      | (k, v), [] =>
        have hj1 : jcost v ≤ fuel := by rw [jcostFields] at hj; omega
        rw [stringifyFields, parseObjItems_succ]
        simp only [List.cons_append, List.append_assoc]
        rw [skipWs_cons (show jsWs '"' = false by decide)]
        show (match parseStrBody (escList k.data ++ '"' :: (':' :: (stringifyVal v ++ rbrace :: rest))) with
          | none => none
          | some (kcs, r1) =>
            match skipWs r1 with
            | [] => none
            | d :: r2 =>
              if d = ':' then
                match parseVal fuel r2 with
                | none => none
                | some (w, r3) =>
                  match skipWs r3 with
                  | [] => none
                  | e :: r4 =>
                    if e = ',' then
                      match parseObjItems fuel r4 with
                      | some (qs, r5) => some ((String.mk kcs, w) :: qs, r5)
                      | none => none
                    else if e = rbrace then some ([(String.mk kcs, w)], r4)
                    else none
              else none) = some ([(k, v)], rest)
        rw [parseStrBody_escList]
        show (match skipWs (':' :: (stringifyVal v ++ rbrace :: rest)) with
          | [] => none
          | d :: r2 =>
            if d = ':' then
              match parseVal fuel r2 with
              | none => none
              | some (w, r3) =>
                match skipWs r3 with
                | [] => none
                | e :: r4 =>
                  if e = ',' then
                    match parseObjItems fuel r4 with
                    | some (qs, r5) => some ((String.mk k.data, w) :: qs, r5)
                    | none => none
                  else if e = rbrace then some ([(String.mk k.data, w)], r4)
                  else none
            else none) = some ([(k, v)], rest)
        rw [skipWs_cons (show jsWs ':' = false by decide)]
        show (match parseVal fuel (stringifyVal v ++ rbrace :: rest) with
          | none => none
          | some (w, r3) =>
            match skipWs r3 with
            | [] => none
            | e :: r4 =>
              if e = ',' then
                match parseObjItems fuel r4 with
                | some (qs, r5) => some ((String.mk k.data, w) :: qs, r5)
                | none => none
              else if e = rbrace then some ([(String.mk k.data, w)], r4)
              else none) = some ([(k, v)], rest)
        rw [ih1 v _ hj1 (numOk_rbrace _)]
        show (match skipWs (rbrace :: rest) with
          | [] => none
          | e :: r4 =>
            if e = ',' then
              match parseObjItems fuel r4 with
              | some (qs, r5) => some ((String.mk k.data, v) :: qs, r5)
              | none => none
            else if e = rbrace then some ([(String.mk k.data, v)], r4)
            else none) = some ([(k, v)], rest)
        rw [skipWs_cons (show jsWs rbrace = false by decide)]
        show (if rbrace = ',' then
            match parseObjItems fuel rest with
            | some (qs, r5) => some ((String.mk k.data, v) :: qs, r5)
            | none => none
          else if rbrace = rbrace then some ([(String.mk k.data, v)], rest)
          else none) = some ([(k, v)], rest)
        rw [if_neg (show rbrace ≠ ',' by decide), if_pos rfl, string_mk_data]
      | (k, v), q :: qs =>
        have hj1 : jcost v ≤ fuel := by rw [jcostFields] at hj; omega
        have hj2 : jcostFields q qs ≤ fuel := by rw [jcostFields] at hj; omega
        rw [stringifyFields, parseObjItems_succ]
        simp only [List.cons_append, List.append_assoc]
        rw [skipWs_cons (show jsWs '"' = false by decide)]
        show (match parseStrBody (escList k.data ++ '"' :: (':' ::
            (stringifyVal v ++ ',' :: (stringifyFields q qs ++ rbrace :: rest)))) with
          | none => none
          | some (kcs, r1) =>
            match skipWs r1 with
            | [] => none
            | d :: r2 =>
              if d = ':' then
                match parseVal fuel r2 with
                | none => none
                | some (w, r3) =>
                  match skipWs r3 with
                  | [] => none
                  | e :: r4 =>
                    if e = ',' then
                      match parseObjItems fuel r4 with
                      | some (rs, r5) => some ((String.mk kcs, w) :: rs, r5)
                      | none => none
                    else if e = rbrace then some ([(String.mk kcs, w)], r4)
                    else none
              else none) = some ((k, v) :: q :: qs, rest)
        rw [parseStrBody_escList]
        show (match skipWs (':' :: (stringifyVal v ++ ',' ::
            (stringifyFields q qs ++ rbrace :: rest))) with
          | [] => none
          | d :: r2 =>
            if d = ':' then
              match parseVal fuel r2 with
              | none => none
              | some (w, r3) =>
                match skipWs r3 with
                | [] => none
                | e :: r4 =>
                  if e = ',' then
                    match parseObjItems fuel r4 with
                    | some (rs, r5) => some ((String.mk k.data, w) :: rs, r5)
                    | none => none
                  else if e = rbrace then some ([(String.mk k.data, w)], r4)
                  else none
            else none) = some ((k, v) :: q :: qs, rest)
        rw [skipWs_cons (show jsWs ':' = false by decide)]
        show (match parseVal fuel (stringifyVal v ++ ',' ::
            (stringifyFields q qs ++ rbrace :: rest)) with
          | none => none
          | some (w, r3) =>
            match skipWs r3 with
            | [] => none
            | e :: r4 =>
              if e = ',' then
                match parseObjItems fuel r4 with
                | some (rs, r5) => some ((String.mk k.data, w) :: rs, r5)
                | none => none
              else if e = rbrace then some ([(String.mk k.data, w)], r4)
              else none) = some ((k, v) :: q :: qs, rest)
        rw [ih1 v _ hj1 (numOk_comma _)]
        show (match skipWs (',' :: (stringifyFields q qs ++ rbrace :: rest)) with
          | [] => none
          | e :: r4 =>
            if e = ',' then
              match parseObjItems fuel r4 with
              | some (rs, r5) => some ((String.mk k.data, v) :: rs, r5)
              | none => none
            else if e = rbrace then some ([(String.mk k.data, v)], r4)
            else none) = some ((k, v) :: q :: qs, rest)
        rw [skipWs_cons (show jsWs ',' = false by decide)]
        show (if (',' : Char) = ',' then
            match parseObjItems fuel (stringifyFields q qs ++ rbrace :: rest) with
            | some (rs, r5) => some ((String.mk k.data, v) :: rs, r5)
            | none => none
          else if (',' : Char) = rbrace then
            some ([(String.mk k.data, v)], stringifyFields q qs ++ rbrace :: rest)
          else none) = some ((k, v) :: q :: qs, rest)
        rw [if_pos rfl, ih3 q qs rest hj2, string_mk_data]

theorem intChars_length_pos (n : Int) : 1 ≤ (intChars n).length := by
  obtain ⟨d, t, ht, _, _⟩ := natDigits_head n.natAbs
  rw [intChars]
  by_cases hn : n < 0
  · rw [if_pos hn]; simp
  · rw [if_neg hn, ht]; simp

theorem jcost_le_length : ∀ n : Nat,
    (∀ v, jcost v ≤ n → jcost v ≤ (stringifyVal v).length) ∧
    (∀ x xs, jcostItems x xs ≤ n → jcostItems x xs ≤ (stringifyItems x xs).length + 1) ∧
    (∀ p ps, jcostFields p ps ≤ n → jcostFields p ps ≤ (stringifyFields p ps).length + 1) := by
  intro n
  induction n with
  | zero =>
    refine ⟨?_, ?_, ?_⟩
    · intro v hj; exact absurd hj (by have := jcost_pos v; omega)
    · intro x xs hj; exact absurd hj (by have := jcostItems_pos x xs; omega)
    · intro p ps hj; exact absurd hj (by have := jcostFields_pos p ps; omega)
  | succ n ih =>
    obtain ⟨ih1, ih2, ih3⟩ := ih
    refine ⟨?_, ?_, ?_⟩
    · intro v hj
      match v with
      | .null =>
        rw [show jcost Json.null = 1 from by simp [jcost], stringifyVal]; decide
      | .bool true =>
        rw [show jcost (Json.bool true) = 1 from by simp [jcost], stringifyVal]; decide
      | .bool false =>
        rw [show jcost (Json.bool false) = 1 from by simp [jcost], stringifyVal]; decide
      | .num m =>
        rw [show jcost (Json.num m) = 1 from by simp [jcost]]
        rw [show stringifyVal (Json.num m) = intChars m from by rw [stringifyVal]]
        have := intChars_length_pos m
        omega
      | .str s =>
        rw [show jcost (Json.str s) = 1 from by simp [jcost], stringifyVal]
        simp only [List.length_cons]
        omega
      | .arr [] =>
        rw [show jcost (Json.arr []) = 1 from by simp [jcost], stringifyVal]; decide
      | .arr (x :: xs) =>
        have hj2 : jcostItems x xs ≤ n := by rw [jcost] at hj; omega
        have h2 := ih2 x xs hj2
        rw [jcost, stringifyVal]
        simp only [List.length_cons, List.length_append]
        omega
      | .obj [] =>
        rw [show jcost (Json.obj []) = 1 from by simp [jcost], stringifyVal]; decide
      | .obj (p :: ps) =>
        have hj2 : jcostFields p ps ≤ n := by rw [jcost] at hj; omega
        have h2 := ih3 p ps hj2
        rw [jcost, stringifyVal]
        simp only [List.length_cons, List.length_append]
        omega
    · intro x xs hj
      match xs with
      | [] =>
        have hj1 : jcost x ≤ n := by rw [jcostItems] at hj; omega
        have h1 := ih1 x hj1
        rw [jcostItems, stringifyItems]
        omega
      | y :: ys =>
        have hj1 : jcost x ≤ n := by rw [jcostItems] at hj; omega
        have hj2 : jcostItems y ys ≤ n := by rw [jcostItems] at hj; omega
        have h1 := ih1 x hj1
        have h2 := ih2 y ys hj2
        rw [jcostItems, stringifyItems]
        simp only [List.length_append, List.length_cons]
        omega
    · intro p ps hj
      match p, ps with
      | (k, v), [] =>
        have hj1 : jcost v ≤ n := by rw [jcostFields] at hj; omega
        have h1 := ih1 v hj1
        rw [jcostFields, stringifyFields]
        simp only [List.length_cons, List.length_append]
        omega
      | (k, v), q :: qs =>
        have hj1 : jcost v ≤ n := by rw [jcostFields] at hj; omega
        have hj2 : jcostFields q qs ≤ n := by rw [jcostFields] at hj; omega
        have h1 := ih1 v hj1
        have h2 := ih3 q qs hj2
        rw [jcostFields, stringifyFields]
        simp only [List.length_cons, List.length_append]
        omega

/-- Round trip of the JSON.stringify and JSON.parse models: parsing a
serialized value recovers it exactly. -/
theorem parseJson_stringifyJson (v : Json) : parseJson (stringifyJson v) = some v := by
  rw [parseJson]
  have hd : (stringifyJson v).data = stringifyVal v := rfl
  rw [hd]
  have hb : jcost v ≤ (stringifyVal v).length := (jcost_le_length (jcost v)).1 v le_rfl
  have hrt := (parse_stringify_all ((stringifyVal v).length + 1)).1 v [] (by omega) numOk_nil
  rw [List.append_nil] at hrt
  rw [hrt]
  rfl

theorem stringifyJson_ne_empty (v : Json) : stringifyJson v ≠ "" := by
  obtain ⟨c, t, h, _⟩ := stringify_head v
  intro he
  have hdata : (stringifyJson v).data = ("" : String).data := by rw [he]
  rw [stringifyJson] at hdata
  simp [h] at hdata

/-! ## Supporting lemmas: the engine store -/

theorem findVal_eraseKey : ∀ (st : Store) (k : String), findVal (eraseKey st k) k = none := by
  intro st k
  induction st with
  | nil => rfl
  | cons e t ih =>
    obtain ⟨k', v⟩ := e
    rw [eraseKey]
    by_cases h : k' = k
    · rw [if_pos h]; exact ih
    · rw [if_neg h, findVal, if_neg h]; exact ih

/-- Round trip of the JSON facade under a non-faulting engine: reading a
key just written returns the written value. -/
theorem jsonStorage_get_set (f : FaultSpec) (st : Store) (k : String) (v : Json)
    (hset : f.failSet k = false) (hget : f.failGetString k = false) :
    jsonStorage.getItem f (jsonStorage.setItem f st k v) k = v := by
  simp [jsonStorage.getItem, jsonStorage.setItem, engineGetString, engineSetStr,
    hset, hget, findVal, stringifyJson_ne_empty v, parseJson_stringifyJson v]

/-! ## Supporting lemmas: the debounce state machine -/

theorem debRun_write_commits {T : Type} :
    ∀ (ws : List T) (s : DebState T),
      (debRun s (ws.map DebEvent.write)).commits = s.commits := by
  intro ws
  induction ws with
  | nil => intro s; rfl
  | cons w ws ih =>
    intro s
    simp only [List.map_cons, debRun, List.foldl_cons]
    have h := ih (debStep s (.write w))
    simp only [debRun] at h
    rw [h]
    rfl

theorem debRun_writes_fire {T : Type} :
    ∀ (ws : List T) (s : DebState T) (v : T), s.pending = some v →
      debRun s (ws.map DebEvent.write ++ [DebEvent.fire]) =
        ⟨ws.getLastD v, none, s.commits + 1⟩ := by
  intro ws
  induction ws with
  | nil =>
    intro s v h
    simp only [List.map_nil, List.nil_append, debRun, List.foldl_cons, List.foldl_nil]
    rw [debStep, h]
    rfl
  | cons w ws ih =>
    intro s v h
    simp only [List.map_cons, List.cons_append, debRun, List.foldl_cons]
    have hstep := ih (debStep s (.write w)) w rfl
    simp only [debRun] at hstep
    rw [hstep, List.getLastD_cons]
    rfl

/-! ## The claims -/

/-- C1: for every key k and string value v, `localStorage.setItem(k, v)`
followed by `localStorage.getItem(k)` returns v, and likewise
`numberStorage.setItem(k, n)` followed by `numberStorage.getItem(k)`
returns n (for example visitCount 5), in the non-faulting operating mode
of the engine. -/
theorem C1_storage_roundTrip (f : FaultSpec) (st : Store) (k : String)
    (v : String) (n : Int) (hset : f.failSet k = false)
    (hgs : f.failGetString k = false) (hgn : f.failGetNumber k = false) :
    localStorage.getItem f (localStorage.setItem f st k v) k = some v ∧
    numberStorage.getItem f (numberStorage.setItem f st k n) k = some n := by
  constructor
  · simp [localStorage.getItem, localStorage.setItem, engineGetString,
      engineSetStr, hset, hgs, findVal]
  · simp [numberStorage.getItem, numberStorage.setItem, engineGetNumber,
      engineSetNum, hset, hgn, findVal]

theorem C1_storage_roundTrip_witness :
    localStorage.getItem noFault
        (localStorage.setItem noFault [] "visitCount" "hello") "visitCount" = some "hello" ∧
    numberStorage.getItem noFault
        (numberStorage.setItem noFault [] "visitCount" 5) "visitCount" = some 5 :=
  C1_storage_roundTrip noFault [] "visitCount" "hello" 5 rfl rfl rfl

/-- C2: no facade operation ever propagates an exception: each operation
is a total function, and for every key (including keys never written) and
even when the underlying engine call faults, it returns its default result
(null for getItem, unchanged state for setItem/removeItem/clear, the empty
list for getAllKeys, false for hasKey). -/
theorem C2_no_throw_defaults :
    (∀ (f : FaultSpec) (st : Store) (k : String), f.failGetString k = true →
      localStorage.getItem f st k = none) ∧
    (∀ (f : FaultSpec) (st : Store) (k v : String), f.failSet k = true →
      localStorage.setItem f st k v = st) ∧
    (∀ (f : FaultSpec) (st : Store) (k : String), f.failRemove k = true →
      localStorage.removeItem f st k = st) ∧
    (∀ (f : FaultSpec) (st : Store), f.failClear = true →
      localStorage.clear f st = st) ∧
    (∀ (f : FaultSpec) (st : Store), f.failGetAllKeys = true →
      localStorage.getAllKeys f st = []) ∧
    (∀ (f : FaultSpec) (st : Store) (k : String), f.failContains k = true →
      localStorage.hasKey f st k = false) ∧
    (∀ (f : FaultSpec) (st : Store) (k : String), f.failGetString k = true →
      jsonStorage.getItem f st k = Json.null) ∧
    (∀ (f : FaultSpec) (st : Store) (k : String) (v : Json), f.failSet k = true →
      jsonStorage.setItem f st k v = st) ∧
    (∀ (f : FaultSpec) (st : Store) (k : String), f.failRemove k = true →
      jsonStorage.removeItem f st k = st) ∧
    (∀ (f : FaultSpec) (st : Store) (k : String), f.failGetNumber k = true →
      numberStorage.getItem f st k = none) ∧
    (∀ (f : FaultSpec) (st : Store) (k : String) (n : Int), f.failSet k = true →
      numberStorage.setItem f st k n = st) ∧
    (∀ (f : FaultSpec) (st : Store) (k : String), f.failRemove k = true →
      numberStorage.removeItem f st k = st) ∧
    (∀ (f : FaultSpec) (st : Store) (k : String), f.failGetBoolean k = true →
      booleanStorage.getItem f st k = none) ∧
    (∀ (f : FaultSpec) (st : Store) (k : String) (b : Bool), f.failSet k = true →
      booleanStorage.setItem f st k b = st) ∧
    (∀ (f : FaultSpec) (st : Store) (k : String), f.failRemove k = true →
      booleanStorage.removeItem f st k = st) ∧
    (∀ (f : FaultSpec) (st : Store) (k : String), f.failGetString k = false →
      findVal st k = none → localStorage.getItem f st k = none) ∧
    (∀ (f : FaultSpec) (st : Store) (k : String), f.failGetString k = false →
      findVal st k = none → jsonStorage.getItem f st k = Json.null) ∧
    (∀ (f : FaultSpec) (st : Store) (k : String), f.failGetNumber k = false →
      findVal st k = none → numberStorage.getItem f st k = none) ∧
    (∀ (f : FaultSpec) (st : Store) (k : String), f.failGetBoolean k = false →
      findVal st k = none → booleanStorage.getItem f st k = none) := by
  refine ⟨?_, ?_, ?_, ?_, ?_, ?_, ?_, ?_, ?_, ?_, ?_, ?_, ?_, ?_, ?_, ?_, ?_, ?_, ?_⟩
  · intro f st k h; simp [localStorage.getItem, engineGetString, h]
  · intro f st k v h; simp [localStorage.setItem, engineSetStr, h]
  · intro f st k h; simp [localStorage.removeItem, engineRemove, h]
  · intro f st h; simp [localStorage.clear, engineClearAll, h]
  · intro f st h; simp [localStorage.getAllKeys, engineGetAllKeys, h]
  · intro f st k h; simp [localStorage.hasKey, engineContains, h]
  · intro f st k h; simp [jsonStorage.getItem, engineGetString, h]
  · intro f st k v h; simp [jsonStorage.setItem, engineSetStr, h]
  · intro f st k h
    simp [jsonStorage.removeItem, localStorage.removeItem, engineRemove, h]
  · intro f st k h; simp [numberStorage.getItem, engineGetNumber, h]
  · intro f st k n h; simp [numberStorage.setItem, engineSetNum, h]
  · intro f st k h
    simp [numberStorage.removeItem, localStorage.removeItem, engineRemove, h]
  · intro f st k h; simp [booleanStorage.getItem, engineGetBoolean, h]
  · intro f st k b h; simp [booleanStorage.setItem, engineSetBool, h]
  · intro f st k h
    simp [booleanStorage.removeItem, localStorage.removeItem, engineRemove, h]
  · intro f st k hf hn; simp [localStorage.getItem, engineGetString, hf, hn]
  · intro f st k hf hn; simp [jsonStorage.getItem, engineGetString, hf, hn]
  · intro f st k hf hn; simp [numberStorage.getItem, engineGetNumber, hf, hn]
  · intro f st k hf hn; simp [booleanStorage.getItem, engineGetBoolean, hf, hn]

theorem C2_no_throw_defaults_witness :
    localStorage.getItem allFail [] "k" = none ∧
    localStorage.setItem allFail [] "k" "v" = [] ∧
    localStorage.removeItem allFail [] "k" = [] ∧
    localStorage.clear allFail [("a", EngineVal.vstr "x")] = [("a", EngineVal.vstr "x")] ∧
    localStorage.getAllKeys allFail [("a", EngineVal.vstr "x")] = [] ∧
    localStorage.hasKey allFail [("k", EngineVal.vstr "x")] "k" = false ∧
    jsonStorage.getItem allFail [] "k" = Json.null ∧
    jsonStorage.setItem allFail [] "k" Json.null = [] ∧
    jsonStorage.removeItem allFail [] "k" = [] ∧
    numberStorage.getItem allFail [] "k" = none ∧
    numberStorage.setItem allFail [] "k" 5 = [] ∧
    numberStorage.removeItem allFail [] "k" = [] ∧
    booleanStorage.getItem allFail [] "k" = none ∧
    booleanStorage.setItem allFail [] "k" true = [] ∧
    booleanStorage.removeItem allFail [] "k" = [] ∧
    localStorage.getItem noFault [] "k" = none ∧
    jsonStorage.getItem noFault [] "k" = Json.null ∧
    numberStorage.getItem noFault [] "k" = none ∧
    booleanStorage.getItem noFault [] "k" = none := by
  obtain ⟨qa, qb, qc, qd, qe, qf, qg, qh, qi, qj, qk, ql, qm, qn, qo,
    qp, qq, qr, qs⟩ := C2_no_throw_defaults
  exact ⟨qa allFail [] "k" rfl, qb allFail [] "k" "v" rfl, qc allFail [] "k" rfl,
    qd allFail _ rfl, qe allFail _ rfl, qf allFail _ "k" rfl,
    qg allFail [] "k" rfl, qh allFail [] "k" Json.null rfl, qi allFail [] "k" rfl,
    qj allFail [] "k" rfl, qk allFail [] "k" 5 rfl, ql allFail [] "k" rfl,
    qm allFail [] "k" rfl, qn allFail [] "k" true rfl, qo allFail [] "k" rfl,
    qp noFault [] "k" rfl rfl, qq noFault [] "k" rfl rfl,
    qr noFault [] "k" rfl rfl, qs noFault [] "k" rfl rfl⟩

/-- C3: for every key whose backing stored text is not valid JSON,
`jsonStorage.getItem` returns null instead of throwing: the parse failure
is caught inside the facade and treated as absence. -/
theorem C3_invalid_json_null (f : FaultSpec) (st : Store) (k s : String)
    (hget : f.failGetString k = false)
    (hstore : findVal st k = some (EngineVal.vstr s))
    (hbad : parseJson s = none) :
    jsonStorage.getItem f st k = Json.null := by
  rw [jsonStorage.getItem, engineGetString, if_neg (by simp [hget]), hstore]
  by_cases he : s = ""
  · simp [he]
  · simp [he, hbad]

theorem C3_invalid_json_null_witness :
    jsonStorage.getItem noFault [("k", EngineVal.vstr "nul")] "k" = Json.null :=
  C3_invalid_json_null noFault [("k", EngineVal.vstr "nul")] "k" "nul" rfl rfl rfl

/-- C4: when the JSON facade holds a (non-null) value v under key k at the
time a persisted atom is created by `atomWithMMKV(k, d)` — in particular
after `jsonStorage.setItem(k, v)` under a non-faulting engine — the first
read of the atom yields v, not the default d; the default is returned when
the facade read yields null, that is, when the key is absent or the read
faults. -/
theorem C4_atom_first_read :
    (∀ (f : FaultSpec) (st : Store) (k : String) (init v : Json),
      v.isNull = false → f.failSet k = false → f.failGetString k = false →
      atomWithMMKV_firstRead init f (jsonStorage.setItem f st k v) k = v) ∧
    (∀ (f : FaultSpec) (st : Store) (k : String) (init : Json),
      jsonStorage.getItem f st k = Json.null →
      atomWithMMKV_firstRead init f st k = init) := by
  constructor
  · intro f st k init v hv hset hget
    rw [atomWithMMKV_firstRead]
    simp only [jsonStorage_get_set f st k v hset hget]
    rw [hv]
    rfl
  · intro f st k init h
    rw [atomWithMMKV_firstRead]
    simp only [h]
    rfl

theorem C4_atom_first_read_witness :
    atomWithMMKV_firstRead (Json.num 0) noFault
        (jsonStorage.setItem noFault [] "counter" (Json.num 7)) "counter" = Json.num 7 ∧
    atomWithMMKV_firstRead (Json.num 0) noFault [] "counter" = Json.num 0 := by
  have h := C4_atom_first_read
  exact ⟨h.1 noFault [] "counter" (Json.num 0) (Json.num 7) rfl rfl rfl,
    h.2 noFault [] "counter" (Json.num 0) rfl⟩

/-- C5: for a debounced atom with no pending timer, issuing writes w1, w2,
w3 within one debounce window (no timer fire interleaves them) commits
only w3 to the base atom, exactly once: no commit happens during the
writes, and the single timer fire commits the last written value.  The
third conjunct states the general trailing-edge property for any nonempty
write sequence. -/
theorem C5_debounce_last_write_only {T : Type} (w1 w2 w3 : T) (s : DebState T)
    (h : s.pending = none) :
    (debRun s ([w1, w2, w3].map DebEvent.write)).commits = s.commits ∧
    debRun s ([w1, w2, w3].map DebEvent.write ++ [DebEvent.fire]) =
      ⟨w3, none, s.commits + 1⟩ ∧
    ∀ (w : T) (ws : List T),
      debRun s ((w :: ws).map DebEvent.write ++ [DebEvent.fire]) =
        ⟨(w :: ws).getLast (List.cons_ne_nil w ws), none, s.commits + 1⟩ := by
  refine ⟨debRun_write_commits [w1, w2, w3] s, ?_, ?_⟩
  · have h2 := debRun_writes_fire [w2, w3] (debStep s (.write w1)) w1 rfl
    simp only [debRun, List.map_cons, List.map_nil, List.cons_append,
      List.foldl_cons] at h2 ⊢
    rw [h2]
    rfl
  · intro w ws
    have h2 := debRun_writes_fire ws (debStep s (.write w)) w rfl
    simp only [debRun, List.map_cons, List.cons_append, List.foldl_cons] at h2 ⊢
    rw [h2, List.getLast_eq_getLastD]
    rfl

theorem C5_debounce_last_write_only_witness :
    (debRun (⟨0, none, 0⟩ : DebState Nat) ([1, 2, 3].map DebEvent.write)).commits = 0 ∧
    debRun (⟨0, none, 0⟩ : DebState Nat) ([1, 2, 3].map DebEvent.write ++ [DebEvent.fire]) =
      ⟨3, none, 1⟩ ∧
    ∀ (w : Nat) (ws : List Nat),
      debRun (⟨0, none, 0⟩ : DebState Nat) ((w :: ws).map DebEvent.write ++ [DebEvent.fire]) =
        ⟨(w :: ws).getLast (List.cons_ne_nil w ws), none, 0 + 1⟩ :=
  C5_debounce_last_write_only 1 2 3 ⟨0, none, 0⟩ rfl

/-- C6: for every key k and JSON value v, `jsonStorage.setItem(k, v)`
followed by `jsonStorage.getItem(k)` returns a value equal (hence
deep-equal) to v: the value survives the JSON.stringify/JSON.parse round
trip, in the non-faulting operating mode of the engine. -/
theorem C6_json_roundTrip (f : FaultSpec) (st : Store) (k : String) (v : Json)
    (hset : f.failSet k = false) (hget : f.failGetString k = false) :
    jsonStorage.getItem f (jsonStorage.setItem f st k v) k = v :=
  jsonStorage_get_set f st k v hset hget

theorem C6_json_roundTrip_witness :
    jsonStorage.getItem noFault
        (jsonStorage.setItem noFault [] "profile"
          (Json.obj [("name", Json.str "ada"), ("tags", Json.arr [Json.num 1, Json.bool true])]))
        "profile" =
      Json.obj [("name", Json.str "ada"), ("tags", Json.arr [Json.num 1, Json.bool true])] :=
  C6_json_roundTrip noFault [] "profile"
    (Json.obj [("name", Json.str "ada"), ("tags", Json.arr [Json.num 1, Json.bool true])])
    rfl rfl

/-- C7: for every key k, `removeItem(k)` followed by `getItem(k)` on the
same facade returns null, for each of the four facades (for example
visitCount through numberStorage), in the non-faulting operating mode. -/
theorem C7_remove_then_get (f : FaultSpec) (st : Store) (k : String)
    (hrem : f.failRemove k = false) (hgs : f.failGetString k = false)
    (hgn : f.failGetNumber k = false) (hgb : f.failGetBoolean k = false) :
    localStorage.getItem f (localStorage.removeItem f st k) k = none ∧
    jsonStorage.getItem f (jsonStorage.removeItem f st k) k = Json.null ∧
    numberStorage.getItem f (numberStorage.removeItem f st k) k = none ∧
    booleanStorage.getItem f (booleanStorage.removeItem f st k) k = none := by
  have he := findVal_eraseKey st k
  refine ⟨?_, ?_, ?_, ?_⟩
  · simp [localStorage.getItem, localStorage.removeItem, engineGetString,
      engineRemove, hrem, hgs, he]
  · simp [jsonStorage.getItem, jsonStorage.removeItem, localStorage.removeItem,
      engineGetString, engineRemove, hrem, hgs, he]
  · simp [numberStorage.getItem, numberStorage.removeItem, localStorage.removeItem,
      engineGetNumber, engineRemove, hrem, hgn, he]
  · simp [booleanStorage.getItem, booleanStorage.removeItem, localStorage.removeItem,
      engineGetBoolean, engineRemove, hrem, hgb, he]

theorem C7_remove_then_get_witness :
    localStorage.getItem noFault
        (localStorage.removeItem noFault [("visitCount", EngineVal.vnum 5)] "visitCount")
        "visitCount" = none ∧
    jsonStorage.getItem noFault
        (jsonStorage.removeItem noFault [("visitCount", EngineVal.vnum 5)] "visitCount")
        "visitCount" = Json.null ∧
    numberStorage.getItem noFault
        (numberStorage.removeItem noFault [("visitCount", EngineVal.vnum 5)] "visitCount")
        "visitCount" = none ∧
    booleanStorage.getItem noFault
        (booleanStorage.removeItem noFault [("visitCount", EngineVal.vnum 5)] "visitCount")
        "visitCount" = none :=
  C7_remove_then_get noFault [("visitCount", EngineVal.vnum 5)] "visitCount"
    rfl rfl rfl rfl

/-- C8: in every storage state, `localStorage.clear()` followed by
`localStorage.getAllKeys()` returns the empty sequence: clearing deletes
every key of the shared store, in the non-faulting operating mode. -/
theorem C8_clear_then_getAllKeys (f : FaultSpec) (st : Store)
    (hc : f.failClear = false) (hk : f.failGetAllKeys = false) :
    localStorage.getAllKeys f (localStorage.clear f st) = [] := by
  simp [localStorage.getAllKeys, localStorage.clear, engineClearAll,
    engineGetAllKeys, hc, hk]

theorem C8_clear_then_getAllKeys_witness :
    localStorage.getAllKeys noFault
      (localStorage.clear noFault
        [("a", EngineVal.vstr "x"), ("b", EngineVal.vnum 2)]) = [] :=
  C8_clear_then_getAllKeys noFault [("a", EngineVal.vstr "x"), ("b", EngineVal.vnum 2)]
    rfl rfl

/-- C9: the removeItem of the JSON, number and boolean facades are each
extensionally equal to `localStorage.removeItem` (all delegate to the same
shared engine instance), so removing a key through any one typed wrapper
deletes the entry for every wrapper: in particular,
`localStorage.setItem(k, v)` followed by `numberStorage.removeItem(k)`
makes `localStorage.getItem(k)` return null. -/
theorem C9_removeItem_shared :
    (∀ (f : FaultSpec) (st : Store) (k : String),
      jsonStorage.removeItem f st k = localStorage.removeItem f st k) ∧
    (∀ (f : FaultSpec) (st : Store) (k : String),
      numberStorage.removeItem f st k = localStorage.removeItem f st k) ∧
    (∀ (f : FaultSpec) (st : Store) (k : String),
      booleanStorage.removeItem f st k = localStorage.removeItem f st k) ∧
    (∀ (f : FaultSpec) (st : Store) (k : String) (v : String),
      f.failSet k = false → f.failRemove k = false → f.failGetString k = false →
      localStorage.getItem f
        (numberStorage.removeItem f (localStorage.setItem f st k v) k) k = none) := by
  refine ⟨fun f st k => rfl, fun f st k => rfl, fun f st k => rfl, ?_⟩
  intro f st k v hset hrem hget
  simp [localStorage.getItem, localStorage.setItem, numberStorage.removeItem,
    localStorage.removeItem, engineGetString, engineSetStr, engineRemove,
    hset, hrem, hget, findVal_eraseKey]

theorem C9_removeItem_shared_witness :
    jsonStorage.removeItem noFault [("k", EngineVal.vstr "x")] "k" =
      localStorage.removeItem noFault [("k", EngineVal.vstr "x")] "k" ∧
    numberStorage.removeItem noFault [("k", EngineVal.vstr "x")] "k" =
      localStorage.removeItem noFault [("k", EngineVal.vstr "x")] "k" ∧
    booleanStorage.removeItem noFault [("k", EngineVal.vstr "x")] "k" =
      localStorage.removeItem noFault [("k", EngineVal.vstr "x")] "k" ∧
    localStorage.getItem noFault
      (numberStorage.removeItem noFault
        (localStorage.setItem noFault [] "userInput" "hi") "userInput") "userInput" = none := by
  obtain ⟨h1, h2, h3, h4⟩ := C9_removeItem_shared
  exact ⟨h1 noFault _ "k", h2 noFault _ "k", h3 noFault _ "k",
    h4 noFault [] "userInput" "hi" rfl rfl rfl⟩

/-- C10: after `localStorage.setItem(k, "")`, the JSON facade collapses
the explicitly stored empty string to null — its falsy check on the raw
text makes it indistinguishable from an absent key — while
`localStorage.getItem(k)` on the same key returns the empty string, not
null. -/
theorem C10_empty_string_falsy (f : FaultSpec) (st : Store) (k : String)
    (hset : f.failSet k = false) (hget : f.failGetString k = false) :
    jsonStorage.getItem f (localStorage.setItem f st k "") k = Json.null ∧
    localStorage.getItem f (localStorage.setItem f st k "") k = some "" := by
  constructor
  · simp [jsonStorage.getItem, localStorage.setItem, engineGetString,
      engineSetStr, hset, hget, findVal]
  · simp [localStorage.getItem, localStorage.setItem, engineGetString,
      engineSetStr, hset, hget, findVal]

theorem C10_empty_string_falsy_witness :
    jsonStorage.getItem noFault (localStorage.setItem noFault [] "k" "") "k" = Json.null ∧
    localStorage.getItem noFault (localStorage.setItem noFault [] "k" "") "k" = some "" :=
  C10_empty_string_falsy noFault [] "k" rfl rfl
